import Mathlib

/-!
Verification of the streaming audio segmentation and deduplication pipeline
of `transcription_app.py` (class TranscriptionThread).

Samples are modelled as exact rationals (ℚ); the Python code operates on
float32 arrays, and all claims are settled under exact arithmetic, the
convention stated by the spec for numerical properties.  Strings are
modelled as lists of characters, with Python str.lower modelled by
Char.toLower, and the Python substring test (the `in` operator) modelled
by an explicit contiguous-sublist search.  The external inference engine
(whisper) is an opaque parameter of the pipeline step.
-/

namespace TranscriptionApp

/-- Source: self.SAMPLE_RATE = 16000. -/
def SAMPLE_RATE : Nat := 16000

/-- Source: window_size = 1024 in find_speech_boundaries. -/
def WINDOW_SIZE : Nat := 1024

/-- Source: self.MIN_PHRASE_LENGTH = 10. -/
def MIN_PHRASE_LENGTH : Nat := 10

/-- Source: set_buffer_size, line 46: max(5, min(30, seconds)). -/
def set_buffer_size (seconds : Int) : Int := max 5 (min 30 seconds)

/-- Source: line 94, MIN_SAMPLES = int(SAMPLE_RATE * buffer_size_seconds). -/
def MIN_SAMPLES (bufferSizeSeconds : Int) : Nat :=
  ((SAMPLE_RATE : Int) * bufferSizeSeconds).toNat

/-- Python str.lower applied characterwise. -/
def strLower (s : List Char) : List Char := s.map Char.toLower

/-- Does hay start with needle?  Helper for the substring test. -/
def listStartsWith : List Char → List Char → Bool
  | _, [] => true
  | [], _ :: _ => false
  | a :: as, b :: bs => a == b && listStartsWith as bs

/-- Python substring operator: listContains hay needle is true iff needle
occurs contiguously inside hay (models needle in hay). -/
def listContains : List Char → List Char → Bool
  | [], needle => needle.isEmpty
  | a :: t, needle => listStartsWith (a :: t) needle || listContains t needle

/-- Source: run loop lines 126-131.  Given the transcript candidate and the
last accepted transcription, returns (emitted text if any, new last accepted
transcription).  Mirrors:
  if transcript and len(transcript) > MIN_PHRASE_LENGTH:
      if transcript.lower() not in last_transcription.lower():
          emit(transcript); last_transcription = transcript -/
def dedupStep (transcript last : List Char) : Option (List Char) × List Char :=
  if transcript.isEmpty = false ∧ MIN_PHRASE_LENGTH < transcript.length then
    if listContains (strLower last) (strLower transcript) then (none, last)
    else (some transcript, transcript)
  else (none, last)

/-- Source: find_speech_boundaries, line 60: the window start offsets
produced by range(0, len(audio_data) - window_size, window_size); the
count of such offsets is the ceiling of (len - window_size) / window_size,
with truncated subtraction giving the empty list for short input. -/
def windowOffsets (n : Nat) : List Nat :=
  (List.range ((n - WINDOW_SIZE + (WINDOW_SIZE - 1)) / WINDOW_SIZE)).map
    (fun j => j * WINDOW_SIZE)

/-- Source: lines 58-61: energy = [np.mean(np.abs(audio_data[i:i+window_size]))
for i in range(0, len(audio_data)-window_size, window_size)]. -/
def windowEnergies (xs : List ℚ) : List ℚ :=
  (windowOffsets xs.length).map (fun i =>
    let slice := (xs.drop i).take WINDOW_SIZE
    (slice.map (fun x => |x|)).sum / (slice.length : ℚ))

/-- Source: line 63: threshold = np.mean(energy) * 0.5. -/
def vadThreshold (xs : List ℚ) : ℚ :=
  (windowEnergies xs).sum / ((windowEnergies xs).length : ℚ) * (1 / 2)

/-- Source: line 64: speech_regions = energy > threshold (elementwise). -/
def vadMask (xs : List ℚ) : List Bool :=
  let thr := vadThreshold xs
  (windowEnergies xs).map (fun e => decide (thr < e))

/-- Source: lines 69-70: np.where(speech_regions)[0], the ascending list of
window indices classified as speech. -/
def speechIdxs (xs : List ℚ) : List Nat :=
  let mask := vadMask xs
  (List.range mask.length).filter (fun i => mask.getD i false)

/-- Source: find_speech_boundaries, lines 55-72.  Returns the half-open
sample range [start, end).  If no window is classified as speech the whole
input is reported (fail-open); otherwise start is the first speech window's
start sample and end the sample after the last speech window, clamped. -/
def find_speech_boundaries (xs : List ℚ) : Nat × Nat :=
  let idxs := speechIdxs xs
  if idxs = [] then (0, xs.length)
  else
    (max 0 (idxs.headD 0 * WINDOW_SIZE),
     min xs.length ((idxs.getLastD 0 + 1) * WINDOW_SIZE))

/-- Modelled from the spec: window start offsets covering every complete
window of the input, as §4.3 describes the partition ("trailing remainder
shorter than W is ignored", i.e. offsets j*W with j*W + W ≤ n).  Used only
to compare the code's windowing against claim C4's reading. -/
def windowOffsetsSpec (n : Nat) : List Nat :=
  (List.range (n / WINDOW_SIZE)).map (fun j => j * WINDOW_SIZE)

/-- Modelled from the spec: per-window mean absolute amplitude over every
complete window (claim C4's reading of the VAD). -/
def windowEnergiesSpec (xs : List ℚ) : List ℚ :=
  (windowOffsetsSpec xs.length).map (fun i =>
    let slice := (xs.drop i).take WINDOW_SIZE
    (slice.map (fun x => |x|)).sum / (slice.length : ℚ))

/-- Modelled from the spec: threshold = 0.5 x mean of all window energies. -/
def vadThresholdSpec (xs : List ℚ) : ℚ :=
  (windowEnergiesSpec xs).sum / ((windowEnergiesSpec xs).length : ℚ) * (1 / 2)

/-- Modelled from the spec: binary speech mask over every complete window. -/
def vadMaskSpec (xs : List ℚ) : List Bool :=
  let thr := vadThresholdSpec xs
  (windowEnergiesSpec xs).map (fun e => decide (thr < e))

/-- Modelled from the spec: speech window indices under claim C4's reading. -/
def speechIdxsSpec (xs : List ℚ) : List Nat :=
  let mask := vadMaskSpec xs
  (List.range mask.length).filter (fun i => mask.getD i false)

/-- Modelled from the spec: the VAD of claim C4, identical to the code's
except that every complete window is evaluated. -/
def find_speech_boundaries_spec (xs : List ℚ) : Nat × Nat :=
  let idxs := speechIdxsSpec xs
  if idxs = [] then (0, xs.length)
  else
    (max 0 (idxs.headD 0 * WINDOW_SIZE),
     min xs.length ((idxs.getLastD 0 + 1) * WINDOW_SIZE))

/-- Source: line 115: np.max(np.abs(speech_segment)), with 0 as the value on
the empty list (the code never evaluates it on an empty segment). -/
def segPeak (xs : List ℚ) : ℚ := (xs.map (fun x => |x|)).foldl max 0

/-- Source: lines 115-117: divide by the peak only when it is positive. -/
def normalize (xs : List ℚ) : List ℚ :=
  if 0 < segPeak xs then xs.map (fun x => x / segPeak xs) else xs

/-- Source: line 120: np.pad(speech_segment, (0, SAMPLE_RATE)): right-pad
with one second of zeros. -/
def padSegment (xs : List ℚ) : List ℚ := xs ++ List.replicate SAMPLE_RATE 0

/-- Source: run loop lines 110-120, the Segment Extractor: produce a
normalized padded segment only when the region is strictly longer than one
second, else nothing. -/
def extractSegment (buffer : List ℚ) (s e : Nat) : Option (List ℚ) :=
  if SAMPLE_RATE < e - s then
    some (padSegment (normalize ((buffer.drop s).take (e - s))))
  else none

/-- Result of one processing cycle of the Pipeline Driver. -/
structure CycleResult where
  buffer : List ℚ
  last : List Char
  emitted : Option (List Char)
  invoked : Option (List ℚ)
  deriving Repr, DecidableEq

/-- Source: run loop lines 106-134, one cycle once the queue has been
drained: when the buffer holds at least MIN_SAMPLES samples, run the VAD on
the first MIN_SAMPLES samples, extract, transcribe (the opaque inference
engine is the transcribe parameter, already stripped), dedup, and trim the
buffer; otherwise the cycle is a no-op. -/
def runCycle (transcribe : List ℚ → List Char) (minSamples : Nat)
    (buffer : List ℚ) (last : List Char) : CycleResult :=
  if minSamples ≤ buffer.length then
    match extractSegment buffer (find_speech_boundaries (buffer.take minSamples)).1
        (find_speech_boundaries (buffer.take minSamples)).2 with
    | some padded =>
      { buffer := buffer.drop (minSamples - SAMPLE_RATE)
        last := (dedupStep (transcribe padded) last).2
        emitted := (dedupStep (transcribe padded) last).1
        invoked := some padded }
    | none =>
      { buffer := buffer.drop (minSamples - SAMPLE_RATE)
        last := last, emitted := none, invoked := none }
  else { buffer := buffer, last := last, emitted := none, invoked := none }

/-! ### Helper lemmas about the windowing -/

lemma lt_windowCount {n j : Nat} :
    j < (n - WINDOW_SIZE + (WINDOW_SIZE - 1)) / WINDOW_SIZE ↔
      j * WINDOW_SIZE + WINDOW_SIZE < n := by
  simp only [WINDOW_SIZE]
  omega

lemma mem_windowOffsets {n i : Nat} :
    i ∈ windowOffsets n ↔ ∃ j, i = j * WINDOW_SIZE ∧ i + WINDOW_SIZE < n := by
  simp only [windowOffsets, List.mem_map, List.mem_range]
  constructor
  · rintro ⟨j, hj, rfl⟩
    exact ⟨j, rfl, lt_windowCount.mp hj⟩
  · rintro ⟨j, rfl, h⟩
    exact ⟨j, lt_windowCount.mpr h, rfl⟩

lemma length_vadMask (xs : List ℚ) :
    (vadMask xs).length = (windowOffsets xs.length).length := by
  simp [vadMask, windowEnergies]

lemma mask_index_bound {xs : List ℚ} {k : Nat} (h : k < (vadMask xs).length) :
    k * WINDOW_SIZE + WINDOW_SIZE < xs.length := by
  rw [length_vadMask] at h
  have hmem : k * WINDOW_SIZE ∈ windowOffsets xs.length := by
    simp only [windowOffsets, List.length_map, List.length_range] at h
    simp only [windowOffsets, List.mem_map, List.mem_range]
    exact ⟨k, h, rfl⟩
  obtain ⟨j, -, hb⟩ := mem_windowOffsets.mp hmem
  exact hb

lemma mem_speechIdxs {xs : List ℚ} {k : Nat} :
    k ∈ speechIdxs xs ↔ (vadMask xs).getD k false = true := by
  simp only [speechIdxs, List.mem_filter, List.mem_range]
  constructor
  · rintro ⟨-, h⟩
    exact h
  · intro h
    refine ⟨?_, h⟩
    by_contra hk
    push_neg at hk
    rw [List.getD_eq_default _ _ hk] at h
    exact Bool.false_ne_true h

lemma speechIdxs_sorted (xs : List ℚ) : (speechIdxs xs).Pairwise (· < ·) := by
  simp only [speechIdxs]
  exact List.Pairwise.sublist (List.filter_sublist _) (List.pairwise_lt_range _)

lemma headD_le_of_sorted {l : List Nat} (h : l.Pairwise (· < ·)) :
    ∀ k ∈ l, l.headD 0 ≤ k := by
  cases l with
  | nil => intro k hk; cases hk
  | cons a t =>
    intro k hk
    rcases List.mem_cons.mp hk with rfl | hk
    · exact Nat.le_refl _
    · exact Nat.le_of_lt ((List.pairwise_cons.mp h).1 k hk)

lemma le_getLastD_of_sorted :
    ∀ (l : List Nat) (d : Nat), l.Pairwise (· < ·) → ∀ k ∈ l, k ≤ l.getLastD d := by
  intro l
  induction l with
  | nil => intro d _ k hk; cases hk
  | cons a t ih =>
    intro d hp k hk
    rw [List.getLastD_cons]
    rcases List.mem_cons.mp hk with h1 | hk
    · rw [h1]
      cases t with
      | nil => simp [List.getLastD]
      | cons b t' =>
        have hmem := List.getLastD_mem_cons (b :: t') a
        rcases List.mem_cons.mp hmem with he | he
        · exact he.ge
        · exact Nat.le_of_lt ((List.pairwise_cons.mp hp).1 _ he)
    · exact ih a (List.pairwise_cons.mp hp).2 k hk

lemma headD_mem {l : List Nat} (h : l ≠ []) : l.headD 0 ∈ l := by
  cases l with
  | nil => exact absurd rfl h
  | cons a t => exact List.mem_cons_self _ _

lemma getLastD_mem {l : List Nat} (h : l ≠ []) : l.getLastD 0 ∈ l := by
  cases l with
  | nil => exact absurd rfl h
  | cons a t =>
    rw [List.getLastD_cons]
    exact List.getLastD_mem_cons t a

/-! ### Fail-open behaviour of the VAD -/

lemma speechIdxs_eq_nil {xs : List ℚ} (h : ∀ b ∈ vadMask xs, b = false) :
    speechIdxs xs = [] := by
  simp only [speechIdxs]
  rw [List.filter_eq_nil_iff]
  intro i hi
  simp only [Bool.not_eq_true]
  rcases Nat.lt_or_ge i (vadMask xs).length with hlt | hge
  · rw [List.getD_eq_getElem _ _ hlt]
    exact h _ (List.getElem_mem hlt)
  · exact List.getD_eq_default _ _ hge

lemma fsb_fail_open {xs : List ℚ} (h : ∀ b ∈ vadMask xs, b = false) :
    find_speech_boundaries xs = (0, xs.length) := by
  simp only [find_speech_boundaries, speechIdxs_eq_nil h, if_pos]

/-! ### All-silence input -/

lemma windowEnergies_replicate_zero (n : Nat) :
    ∀ e ∈ windowEnergies (List.replicate n (0 : ℚ)), e = 0 := by
  intro e he
  simp only [windowEnergies, List.mem_map] at he
  obtain ⟨i, -, rfl⟩ := he
  simp [List.drop_replicate, List.take_replicate, List.map_replicate]

lemma vadThreshold_replicate_zero (n : Nat) :
    vadThreshold (List.replicate n (0 : ℚ)) = 0 := by
  have hsum : (windowEnergies (List.replicate n (0 : ℚ))).sum = 0 :=
    List.sum_eq_zero (windowEnergies_replicate_zero n)
  simp [vadThreshold, hsum]

lemma vadMask_replicate_zero (n : Nat) :
    ∀ b ∈ vadMask (List.replicate n (0 : ℚ)), b = false := by
  intro b hb
  simp only [vadMask, List.mem_map] at hb
  obtain ⟨e, he, rfl⟩ := hb
  rw [windowEnergies_replicate_zero n e he, vadThreshold_replicate_zero]
  simp

/-! ### Peak and normalization -/

lemma le_foldl_max : ∀ (l : List ℚ) (a : ℚ), a ≤ l.foldl max a := by
  intro l
  induction l with
  | nil => intro a; exact le_refl a
  | cons x t ih =>
    intro a
    exact le_trans (le_max_left a x) (ih (max a x))

lemma segPeak_nonneg (xs : List ℚ) : 0 ≤ segPeak xs :=
  le_foldl_max _ 0

lemma foldl_max_map_div (m : ℚ) (hm : 0 < m) :
    ∀ (l : List ℚ) (a : ℚ),
      (l.map (fun x => x / m)).foldl max (a / m) = l.foldl max a / m := by
  intro l
  induction l with
  | nil => intro a; rfl
  | cons x t ih =>
    intro a
    simp only [List.map_cons, List.foldl_cons]
    rw [max_div_div_right (le_of_lt hm), ih]

lemma segPeak_map_div (xs : List ℚ) (m : ℚ) (hm : 0 < m) :
    segPeak (xs.map (fun x => x / m)) = segPeak xs / m := by
  have habs : (xs.map (fun x => x / m)).map (fun x => |x|) =
      (xs.map (fun x => |x|)).map (fun x => x / m) := by
    simp only [List.map_map]
    refine List.map_congr_left ?_
    intro x _
    simp [Function.comp, abs_div, abs_of_pos hm]
  rw [segPeak, habs, ← zero_div m, foldl_max_map_div m hm]
  rfl

lemma normalize_length (xs : List ℚ) : (normalize xs).length = xs.length := by
  unfold normalize
  split <;> simp

lemma segPeak_normalize {xs : List ℚ} (h : 0 < segPeak xs) :
    segPeak (normalize xs) = 1 := by
  rw [normalize, if_pos h, segPeak_map_div xs _ h, div_self (ne_of_gt h)]

lemma normalize_of_peak_zero {xs : List ℚ} (h : segPeak xs = 0) :
    normalize xs = xs := by
  rw [normalize, if_neg]
  rw [h]
  exact lt_irrefl 0

lemma segPeak_replicate_zero (n : Nat) : segPeak (List.replicate n (0 : ℚ)) = 0 := by
  induction n with
  | zero => rfl
  | succ k ih =>
    rw [List.replicate_succ, segPeak, List.map_cons, List.foldl_cons]
    simpa [segPeak] using ih

lemma foldl_max_one : ∀ n : Nat, (List.replicate n (1 : ℚ)).foldl max 1 = 1 := by
  intro n
  induction n with
  | zero => rfl
  | succ k ih =>
    rw [List.replicate_succ, List.foldl_cons, max_self]
    exact ih

lemma segPeak_replicate_one (n : Nat) :
    segPeak (List.replicate (n + 1) (1 : ℚ)) = 1 := by
  rw [segPeak, List.map_replicate, abs_one, List.replicate_succ, List.foldl_cons]
  rw [max_eq_right (by norm_num : (0:ℚ) ≤ 1)]
  exact foldl_max_one n

lemma normalize_replicate_one (n : Nat) :
    normalize (List.replicate (n + 1) (1 : ℚ)) = List.replicate (n + 1) (1 : ℚ) := by
  rw [normalize, if_pos (by rw [segPeak_replicate_one]; norm_num)]
  rw [segPeak_replicate_one, List.map_replicate]
  norm_num

/-! ### Segment extraction -/

lemma extractSegment_eq_some {buffer : List ℚ} {s e : Nat} {seg : List ℚ} :
    extractSegment buffer s e = some seg ↔
      SAMPLE_RATE < e - s ∧
        seg = padSegment (normalize ((buffer.drop s).take (e - s))) := by
  unfold extractSegment
  split_ifs with h
  · constructor
    · intro hs
      exact ⟨h, (Option.some.inj hs).symm⟩
    · rintro ⟨-, rfl⟩
      rfl
  · constructor
    · intro hs
      simp at hs
    · rintro ⟨hlt, -⟩
      exact absurd hlt h

lemma extractSegment_eq_none {buffer : List ℚ} {s e : Nat} :
    extractSegment buffer s e = none ↔ e - s ≤ SAMPLE_RATE := by
  unfold extractSegment
  split_ifs with h
  · constructor
    · intro hs
      simp at hs
    · intro hs
      omega
  · constructor
    · intro hs
      omega
    · intro hs
      rfl

lemma slice_length {buffer : List ℚ} {s e : Nat} (hse : s ≤ e) (h : e ≤ buffer.length) :
    ((buffer.drop s).take (e - s)).length = e - s := by
  simp only [List.length_take, List.length_drop]
  omega

/-! ### The cycle driver -/

lemma runCycle_buffer (transcribe : List ℚ → List Char) (m : Nat)
    (buffer : List ℚ) (last : List Char) (h : m ≤ buffer.length) :
    (runCycle transcribe m buffer last).buffer = buffer.drop (m - SAMPLE_RATE) := by
  unfold runCycle
  rw [if_pos h]
  rcases hE : extractSegment buffer (find_speech_boundaries (buffer.take m)).1
      (find_speech_boundaries (buffer.take m)).2 with _ | padded
  · simp
  · simp

lemma runCycle_failopen_invoked (transcribe : List ℚ → List Char) (m : Nat)
    (buffer : List ℚ) (last : List Char) (hm : SAMPLE_RATE < m)
    (hlen : m ≤ buffer.length)
    (hmask : ∀ b ∈ vadMask (buffer.take m), b = false) :
    (runCycle transcribe m buffer last).invoked =
      some (padSegment (normalize (buffer.take m))) := by
  have hfsb : find_speech_boundaries (buffer.take m) = (0, m) := by
    rw [fsb_fail_open hmask, List.length_take, min_eq_left hlen]
  have hext : extractSegment buffer 0 m =
      some (padSegment (normalize (buffer.take m))) := by
    rw [extractSegment_eq_some]
    constructor
    · omega
    · rw [List.drop_zero, Nat.sub_zero]
  unfold runCycle
  rw [if_pos hlen]
  simp only [hfsb, hext]

/-! ### Concrete inputs used to separate the code's windowing from the
claimed windowing: 1024 silent samples followed by loud samples. -/

lemma slice_zeros (b : Nat) :
    ((List.replicate 1024 (0:ℚ) ++ List.replicate b 1).drop 0).take 1024 =
      List.replicate 1024 (0:ℚ) := by
  rw [List.drop_zero]
  exact List.take_left' (by rw [List.length_replicate])

lemma slice_ones {b : Nat} (hb : 1024 ≤ b) :
    ((List.replicate 1024 (0:ℚ) ++ List.replicate b 1).drop 1024).take 1024 =
      List.replicate 1024 (1:ℚ) := by
  rw [List.drop_left' (by rw [List.length_replicate]), List.take_replicate,
    min_eq_left hb]

lemma len_mix (b : Nat) :
    (List.replicate 1024 (0:ℚ) ++ List.replicate b 1).length = 1024 + b := by
  simp only [List.length_append, List.length_replicate]

lemma energies_cex_2048 :
    windowEnergies (List.replicate 1024 (0:ℚ) ++ List.replicate 1024 1) = [0] := by
  have hoffs : windowOffsets 2048 = [0] := by decide
  rw [windowEnergies, len_mix]
  norm_num
  rw [hoffs]
  simp only [List.map_cons, List.map_nil, WINDOW_SIZE]
  rw [slice_zeros]
  simp only [List.map_replicate, abs_zero, List.sum_replicate, smul_zero,
    List.length_replicate, zero_div]

lemma energies_cex_2049 :
    windowEnergies (List.replicate 1024 (0:ℚ) ++ List.replicate 1025 1) = [0, 1] := by
  have hoffs : windowOffsets 2049 = [0, 1024] := by decide
  rw [windowEnergies, len_mix]
  norm_num
  rw [hoffs]
  simp only [List.map_cons, List.map_nil, WINDOW_SIZE]
  rw [slice_zeros, slice_ones (by norm_num)]
  simp only [List.map_replicate, abs_zero, abs_one, List.sum_replicate, smul_zero,
    List.length_replicate, zero_div, nsmul_eq_mul, mul_one]
  norm_num

lemma energiesSpec_cex_2048 :
    windowEnergiesSpec (List.replicate 1024 (0:ℚ) ++ List.replicate 1024 1) = [0, 1] := by
  have hoffs : windowOffsetsSpec 2048 = [0, 1024] := by decide
  rw [windowEnergiesSpec, len_mix]
  norm_num
  rw [hoffs]
  simp only [List.map_cons, List.map_nil, WINDOW_SIZE]
  rw [slice_zeros, slice_ones (by norm_num)]
  simp only [List.map_replicate, abs_zero, abs_one, List.sum_replicate, smul_zero,
    List.length_replicate, zero_div, nsmul_eq_mul, mul_one]
  norm_num

lemma mask_cex_2048 :
    vadMask (List.replicate 1024 (0:ℚ) ++ List.replicate 1024 1) = [false] := by
  have hthr : vadThreshold (List.replicate 1024 (0:ℚ) ++ List.replicate 1024 1) = 0 := by
    rw [vadThreshold, energies_cex_2048]
    norm_num
  simp only [vadMask, hthr, energies_cex_2048, List.map_cons, List.map_nil]
  norm_num

lemma mask_cex_2049 :
    vadMask (List.replicate 1024 (0:ℚ) ++ List.replicate 1025 1) = [false, true] := by
  have hthr : vadThreshold (List.replicate 1024 (0:ℚ) ++ List.replicate 1025 1) = 1/4 := by
    rw [vadThreshold, energies_cex_2049]
    norm_num
  simp only [vadMask, hthr, energies_cex_2049, List.map_cons, List.map_nil]
  norm_num

lemma maskSpec_cex_2048 :
    vadMaskSpec (List.replicate 1024 (0:ℚ) ++ List.replicate 1024 1) = [false, true] := by
  have hthr : vadThresholdSpec (List.replicate 1024 (0:ℚ) ++ List.replicate 1024 1) = 1/4 := by
    rw [vadThresholdSpec, energiesSpec_cex_2048]
    norm_num
  simp only [vadMaskSpec, hthr, energiesSpec_cex_2048, List.map_cons, List.map_nil]
  norm_num

lemma fsb_cex_2048 :
    find_speech_boundaries (List.replicate 1024 (0:ℚ) ++ List.replicate 1024 1) = (0, 2048) := by
  rw [fsb_fail_open (by rw [mask_cex_2048]; intro b hb; simpa using hb), len_mix]

lemma fsbSpec_cex_2048 :
    find_speech_boundaries_spec (List.replicate 1024 (0:ℚ) ++ List.replicate 1024 1)
      = (1024, 2048) := by
  have hidx : speechIdxsSpec (List.replicate 1024 (0:ℚ) ++ List.replicate 1024 1) = [1] := by
    simp only [speechIdxsSpec, maskSpec_cex_2048]
    decide
  simp only [find_speech_boundaries_spec, hidx, len_mix]
  norm_num [WINDOW_SIZE]

lemma anymask_2049 :
    (vadMask (List.replicate 1024 (0:ℚ) ++ List.replicate 1025 1)).any (fun b => b) = true := by
  rw [mask_cex_2049]
  decide

lemma speechIdxs_lt_length {xs : List ℚ} {k : Nat} (h : k ∈ speechIdxs xs) :
    k < (vadMask xs).length := by
  simp only [speechIdxs, List.mem_filter, List.mem_range] at h
  exact h.1

/-! ## Claim theorems -/

/-- C1: for every input on which every analysis window's energy is at or
below the threshold (0.5 times the mean of all window energies), the VAD
returns the region (0, len(input)), reporting the entire input as the
speech region (fail-open). -/
theorem C1_vad_fail_open (xs : List ℚ)
    (h : ∀ e ∈ windowEnergies xs, e ≤ vadThreshold xs) :
    find_speech_boundaries xs = (0, xs.length) := by
  apply fsb_fail_open
  intro b hb
  simp only [vadMask, List.mem_map] at hb
  obtain ⟨e, he, rfl⟩ := hb
  exact decide_eq_false (not_lt.mpr (h e he))

/-- Witness for C1 at an all-silent input holding one full window. -/
theorem C1_vad_fail_open_witness :
    find_speech_boundaries (List.replicate 1025 (0 : ℚ)) = (0, 1025) := by
  have h := C1_vad_fail_open (List.replicate 1025 (0 : ℚ)) (fun e he => by
    rw [windowEnergies_replicate_zero 1025 e he, vadThreshold_replicate_zero])
  rwa [List.length_replicate] at h

/-- C2: the Dedup Filter emits a candidate exactly when its length exceeds
MIN_PHRASE_LENGTH (10) and its lowercased text is not a substring of the
lowercased last accepted text (initially empty); exactly on emission the
candidate replaces the last accepted text, otherwise the state is kept. -/
theorem C2_dedup_characterization (t l : List Char) :
    dedupStep t l =
      if MIN_PHRASE_LENGTH < t.length ∧
          listContains (strLower l) (strLower t) = false
      then (some t, t) else (none, l) := by
  unfold dedupStep
  split_ifs with h1 h2 h3 h3 h3
  · exact absurd h3.2 (by simp [h2])
  · rfl
  · rfl
  · exact absurd ⟨h1.2, by simpa using h2⟩ h3
  · refine absurd ⟨?_, h3.1⟩ h1
    have hne : t ≠ [] := by
      intro hnil
      rw [hnil] at h3
      simp [MIN_PHRASE_LENGTH] at h3
    simp [List.isEmpty_iff, hne]
  · rfl

/-- C3 counterexample: a region of exactly one second (16000 samples) is at
least one second long, yet the extractor produces no segment, because the
code requires end - start to strictly exceed SAMPLE_RATE. -/
theorem C3_counterexample :
    SAMPLE_RATE ≤ 16000 - 0 ∧
      extractSegment (List.replicate 16000 (1 : ℚ)) 0 16000 = none := by
  constructor
  · decide
  · rw [extractSegment_eq_none]
    decide

/-- C3 amended: the Segment Extractor produces no segment exactly when the
region spans at most one second (end - start ≤ SAMPLE_RATE samples), and
produces a segment for every region strictly longer than one second. -/
theorem C3_min_duration_amended (buffer : List ℚ) (s e : Nat) :
    (extractSegment buffer s e = none ↔ e - s ≤ SAMPLE_RATE) ∧
    ((extractSegment buffer s e).isSome = true ↔ SAMPLE_RATE < e - s) := by
  refine ⟨extractSegment_eq_none, ?_⟩
  rw [Option.isSome_iff_ne_none, Ne, extractSegment_eq_none, not_le]

/-- C4 counterexample: on an input of 2048 samples, an exact multiple of the
window size, whose second (complete) window is loud, the code evaluates only
the offsets of range(0, len - W, W), skipping the final complete window at
offset 1024; it classifies nothing as speech and fails open to (0, 2048),
while evaluating every complete window, as the claim states, yields the
region (1024, 2048). -/
theorem C4_counterexample :
    find_speech_boundaries (List.replicate 1024 (0:ℚ) ++ List.replicate 1024 1)
        = (0, 2048) ∧
      find_speech_boundaries_spec (List.replicate 1024 (0:ℚ) ++ List.replicate 1024 1)
        = (1024, 2048) ∧
      ((0, 2048) : Nat × Nat) ≠ (1024, 2048) :=
  ⟨fsb_cex_2048, fsbSpec_cex_2048, by decide⟩

/-- C4 amended: the VAD computes energies over consecutive non-overlapping
windows at offsets 0, W, 2W, ... restricted to offsets with offset + W
strictly less than the input length, so besides the trailing remainder the
final complete window is also ignored when the length is an exact multiple
of W; when at least one evaluated window is classified as speech, the
returned region runs from the first speech window's start sample to the end
sample of the last speech window (intervening silence included). -/
theorem C4_windowing_amended (xs : List ℚ) :
    (∀ i, i ∈ windowOffsets xs.length ↔
        ∃ j, i = j * WINDOW_SIZE ∧ i + WINDOW_SIZE < xs.length) ∧
    ((vadMask xs).any (fun b => b) = true →
      ∃ kf kl, kf ≤ kl ∧
        (vadMask xs).getD kf false = true ∧
        (vadMask xs).getD kl false = true ∧
        (∀ k, (vadMask xs).getD k false = true → kf ≤ k ∧ k ≤ kl) ∧
        find_speech_boundaries xs =
          (kf * WINDOW_SIZE, (kl + 1) * WINDOW_SIZE)) := by
  constructor
  · intro i
    exact mem_windowOffsets
  · intro hany
    have hne : speechIdxs xs ≠ [] := by
      rw [List.any_eq_true] at hany
      obtain ⟨b, hb, hbt⟩ := hany
      obtain ⟨k, hk, hbk⟩ := List.mem_iff_getElem.mp hb
      have hgd : (vadMask xs).getD k false = true := by
        rw [List.getD_eq_getElem _ _ hk, hbk]
        exact hbt
      intro hnil
      have hmem := mem_speechIdxs.mpr hgd
      rw [hnil] at hmem
      cases hmem
    have hsort := speechIdxs_sorted xs
    have hf := headD_mem hne
    have hl := getLastD_mem hne
    refine ⟨(speechIdxs xs).headD 0, (speechIdxs xs).getLastD 0,
      headD_le_of_sorted hsort _ hl, mem_speechIdxs.mp hf, mem_speechIdxs.mp hl,
      ?_, ?_⟩
    · intro k hk
      have hkmem := mem_speechIdxs.mpr hk
      exact ⟨headD_le_of_sorted hsort k hkmem,
        le_getLastD_of_sorted _ 0 hsort k hkmem⟩
    · have hbound := mask_index_bound (speechIdxs_lt_length hl)
      simp only [find_speech_boundaries]
      rw [if_neg hne, Nat.zero_max, min_eq_right]
      rw [Nat.succ_mul]
      omega

/-- Witness for C4 at an input of 2049 samples whose second window is loud:
the hypothesis that some window is classified as speech holds and the
boundary description applies. -/
theorem C4_windowing_amended_witness :
    ∃ kf kl, kf ≤ kl ∧
      (vadMask (List.replicate 1024 (0:ℚ) ++ List.replicate 1025 1)).getD kf false = true ∧
      (vadMask (List.replicate 1024 (0:ℚ) ++ List.replicate 1025 1)).getD kl false = true ∧
      (∀ k, (vadMask (List.replicate 1024 (0:ℚ) ++ List.replicate 1025 1)).getD k false = true →
          kf ≤ k ∧ k ≤ kl) ∧
      find_speech_boundaries (List.replicate 1024 (0:ℚ) ++ List.replicate 1025 1) =
        (kf * WINDOW_SIZE, (kl + 1) * WINDOW_SIZE) :=
  (C4_windowing_amended (List.replicate 1024 (0:ℚ) ++ List.replicate 1025 1)).2 anymask_2049

/-- C5 counterexample: with the default 10-second buffer (MIN_SAMPLES =
160000 at 16 kHz) and a buffer of exactly MIN_SAMPLES samples, the cycle
retains 16000 samples (one second), not the MIN_SAMPLES - SAMPLE_RATE =
144000 most recent samples the claim states: the code drops the first
MIN_SAMPLES - SAMPLE_RATE samples instead of keeping that many. -/
theorem C5_counterexample :
    ((runCycle (fun _ => []) 160000 (List.replicate 160000 (0 : ℚ)) []).buffer).length
        = 16000 ∧ (16000 : Nat) ≠ 160000 - 16000 := by
  constructor
  · rw [runCycle_buffer _ _ _ _ (by rw [List.length_replicate]),
      List.length_drop, List.length_replicate]
    decide
  · decide

/-- C5 amended: whenever the buffer holds at least minSamples samples, the
cycle drops the first minSamples - SAMPLE_RATE samples, retaining the
len - (minSamples - SAMPLE_RATE) most recent samples, regardless of whether
extraction produced a segment; for a buffer of exactly minSamples samples
this retains one second (SAMPLE_RATE samples) of context. -/
theorem C5_retention_amended (transcribe : List ℚ → List Char) (m : Nat)
    (buffer : List ℚ) (last : List Char) (h : m ≤ buffer.length) :
    (runCycle transcribe m buffer last).buffer = buffer.drop (m - SAMPLE_RATE) ∧
    (runCycle transcribe m buffer last).buffer.length
      = buffer.length - (m - SAMPLE_RATE) := by
  refine ⟨runCycle_buffer transcribe m buffer last h, ?_⟩
  rw [runCycle_buffer transcribe m buffer last h, List.length_drop]

/-- Witness for C5 at a 17000-sample buffer with minSamples 17000. -/
theorem C5_retention_amended_witness :
    (runCycle (fun _ => []) 17000 (List.replicate 17000 (0 : ℚ)) []).buffer
        = (List.replicate 17000 (0 : ℚ)).drop (17000 - SAMPLE_RATE) ∧
      (runCycle (fun _ => []) 17000 (List.replicate 17000 (0 : ℚ)) []).buffer.length
        = (List.replicate 17000 (0 : ℚ)).length - (17000 - SAMPLE_RATE) :=
  C5_retention_amended (fun _ => []) 17000 (List.replicate 17000 (0 : ℚ)) []
    (by rw [List.length_replicate])

/-- C6 counterexample: the candidate "hello there, how are you" strictly
contains the last accepted text "hello there" case-insensitively and is
longer than the minimum phrase length, yet the Dedup Filter emits it rather
than suppressing it: the code's containment test is candidate-inside-last. -/
theorem C6_counterexample :
    listContains (strLower ("hello there, how are you".toList))
        (strLower ("hello there".toList)) = true ∧
      ("hello there".toList) ≠ ("hello there, how are you".toList) ∧
      (dedupStep ("hello there, how are you".toList) ("hello there".toList)).1
        = some ("hello there, how are you".toList) := by
  refine ⟨by decide, by decide, by decide⟩

/-- C6 amended: the Dedup Filter suppresses exactly the candidates whose
lowercased text occurs inside the lowercased last accepted text (leaving the
last accepted text unchanged); a longer candidate that strictly contains the
last accepted text is not suppressed by the containment test. -/
theorem C6_containment_amended (t l : List Char)
    (h : listContains (strLower l) (strLower t) = true) :
    dedupStep t l = (none, l) := by
  unfold dedupStep
  split_ifs with h1
  · rfl
  · rfl

/-- Witness for C6: the candidate "hello" is contained in the last accepted
text "hello there" and is suppressed. -/
theorem C6_containment_amended_witness :
    dedupStep ("hello".toList) ("hello there".toList) = (none, ("hello there".toList)) :=
  C6_containment_amended _ _ (by decide)

/-- C7: for every emitted segment whose pre-padding slice has strictly
positive peak absolute amplitude, the peak absolute value of the pre-padding
part of the segment is exactly 1 under exact arithmetic; the division is
performed only under the strictly-positive guard, and a zero-peak slice is
passed through unscaled, so no division by zero occurs. -/
theorem C7_normalization (buffer : List ℚ) (s e : Nat) (seg : List ℚ)
    (hle : e ≤ buffer.length)
    (hsome : extractSegment buffer s e = some seg) :
    (0 < segPeak ((buffer.drop s).take (e - s)) →
        segPeak (seg.take (seg.length - SAMPLE_RATE)) = 1) ∧
    (segPeak ((buffer.drop s).take (e - s)) = 0 →
        seg.take (seg.length - SAMPLE_RATE) = (buffer.drop s).take (e - s)) := by
  obtain ⟨hlt, rfl⟩ := extractSegment_eq_some.mp hsome
  have hs_le : s ≤ e := by omega
  have hlen : ((buffer.drop s).take (e - s)).length = e - s := slice_length hs_le hle
  have hseglen : (padSegment (normalize ((buffer.drop s).take (e - s)))).length
      = (e - s) + SAMPLE_RATE := by
    simp only [padSegment, List.length_append, normalize_length, hlen,
      List.length_replicate]
  have htake : (padSegment (normalize ((buffer.drop s).take (e - s)))).take
      ((padSegment (normalize ((buffer.drop s).take (e - s)))).length - SAMPLE_RATE)
      = normalize ((buffer.drop s).take (e - s)) := by
    rw [hseglen, Nat.add_sub_cancel, padSegment]
    exact List.take_left' (by rw [normalize_length, hlen])
  constructor
  · intro hpos
    rw [htake]
    exact segPeak_normalize hpos
  · intro hzero
    rw [htake]
    exact normalize_of_peak_zero hzero

/-- Witness for C7 at an all-ones slice of 16001 samples. -/
theorem C7_normalization_witness :
    segPeak ((List.replicate 16001 (1:ℚ) ++ List.replicate 16000 0).take
      ((List.replicate 16001 (1:ℚ) ++ List.replicate 16000 0).length - SAMPLE_RATE))
      = 1 := by
  have h1 : normalize (List.replicate 16001 (1:ℚ)) = List.replicate 16001 1 :=
    normalize_replicate_one 16000
  have hpk : segPeak (List.replicate 16001 (1:ℚ)) = 1 := segPeak_replicate_one 16000
  refine (C7_normalization (List.replicate 16001 (1:ℚ)) 0 16001
      (List.replicate 16001 (1:ℚ) ++ List.replicate 16000 0) ?_ ?_).1 ?_
  · rw [List.length_replicate]
  · rw [extractSegment_eq_some]
    refine ⟨by decide, ?_⟩
    rw [List.drop_zero, Nat.sub_zero, List.take_replicate, min_self, h1, padSegment]
    simp only [SAMPLE_RATE]
  · rw [List.drop_zero, Nat.sub_zero, List.take_replicate, min_self, hpk]
    norm_num

/-- C8: every segment the extractor emits consists of the (normalized)
speech slice followed by exactly one second (SAMPLE_RATE samples) of zeros;
the pre-padding slice is never shorter than one second, and the emitted
segment's total length is (end - start) + SAMPLE_RATE. -/
theorem C8_padding (buffer : List ℚ) (s e : Nat) (seg : List ℚ)
    (hle : e ≤ buffer.length)
    (hsome : extractSegment buffer s e = some seg) :
    SAMPLE_RATE ≤ e - s ∧
    seg.length = (e - s) + SAMPLE_RATE ∧
    seg.drop (e - s) = List.replicate SAMPLE_RATE 0 := by
  obtain ⟨hlt, rfl⟩ := extractSegment_eq_some.mp hsome
  have hs_le : s ≤ e := by omega
  have hlen : ((buffer.drop s).take (e - s)).length = e - s := slice_length hs_le hle
  refine ⟨Nat.le_of_lt hlt, ?_, ?_⟩
  · simp only [padSegment, List.length_append, normalize_length, hlen,
      List.length_replicate]
  · rw [padSegment]
    exact List.drop_left' (by rw [normalize_length, hlen])

/-- Witness for C8 at an all-silent slice of 16001 samples. -/
theorem C8_padding_witness :
    SAMPLE_RATE ≤ 16001 - 0 ∧
      (List.replicate 16001 (0:ℚ) ++ List.replicate 16000 0).length
        = (16001 - 0) + SAMPLE_RATE ∧
      (List.replicate 16001 (0:ℚ) ++ List.replicate 16000 0).drop (16001 - 0)
        = List.replicate SAMPLE_RATE 0 := by
  refine C8_padding (List.replicate 16001 (0:ℚ)) 0 16001
    (List.replicate 16001 (0:ℚ) ++ List.replicate 16000 0) ?_ ?_
  · rw [List.length_replicate]
  · rw [extractSegment_eq_some]
    refine ⟨by decide, ?_⟩
    rw [List.drop_zero, Nat.sub_zero, List.take_replicate, min_self,
      normalize_of_peak_zero (segPeak_replicate_zero 16001), padSegment]
    simp only [SAMPLE_RATE]

/-- C9: on every non-empty input the region returned by the VAD satisfies
0 ≤ start ≤ end ≤ len(input), so the caller's slice of the buffer at
[start:end) is in range; the embedded VAD is a total function, matching the
code never raising on empty or short input. -/
theorem C9_region_bounds (xs : List ℚ) (hne : xs ≠ []) :
    0 ≤ (find_speech_boundaries xs).1 ∧
    (find_speech_boundaries xs).1 ≤ (find_speech_boundaries xs).2 ∧
    (find_speech_boundaries xs).2 ≤ xs.length := by
  by_cases h : speechIdxs xs = []
  · simp [find_speech_boundaries, h]
  · have hsort := speechIdxs_sorted xs
    have hf := headD_mem h
    have hl := getLastD_mem h
    have hfl : (speechIdxs xs).headD 0 ≤ (speechIdxs xs).getLastD 0 :=
      headD_le_of_sorted hsort _ hl
    have hfo := mask_index_bound (speechIdxs_lt_length hf)
    have hlo := mask_index_bound (speechIdxs_lt_length hl)
    simp only [find_speech_boundaries]
    rw [if_neg h]
    dsimp only
    refine ⟨Nat.zero_le _, ?_, min_le_left _ _⟩
    rw [Nat.zero_max]
    refine le_min (by omega) ?_
    calc (speechIdxs xs).headD 0 * WINDOW_SIZE
        ≤ (speechIdxs xs).getLastD 0 * WINDOW_SIZE := Nat.mul_le_mul_right _ hfl
      _ ≤ ((speechIdxs xs).getLastD 0 + 1) * WINDOW_SIZE :=
        Nat.mul_le_mul_right _ (Nat.le_succ _)

/-- Witness for C9 at a one-sample input. -/
theorem C9_region_bounds_witness :
    0 ≤ (find_speech_boundaries [(1:ℚ)]).1 ∧
    (find_speech_boundaries [(1:ℚ)]).1 ≤ (find_speech_boundaries [(1:ℚ)]).2 ∧
    (find_speech_boundaries [(1:ℚ)]).2 ≤ [(1:ℚ)].length :=
  C9_region_bounds [(1:ℚ)] (by simp)

/-- C10: for every configured buffer size, set_buffer_size clamps it to at
least 5 seconds, so MIN_SAMPLES strictly exceeds one second of samples;
hence whenever a full buffer's VAD classifies no window as speech, the
fail-open region (0, MIN_SAMPLES) passes the one-second minimum-duration
check and the all-silence prefix is normalized, padded and submitted to the
inference engine: the minimum-duration filter never screens out the
fail-open case. -/
theorem C10_failopen_submitted (sec : Int) (transcribe : List ℚ → List Char)
    (buffer : List ℚ) (last : List Char)
    (hlen : MIN_SAMPLES (set_buffer_size sec) ≤ buffer.length)
    (hmask : ∀ b ∈ vadMask (buffer.take (MIN_SAMPLES (set_buffer_size sec))),
      b = false) :
    SAMPLE_RATE < MIN_SAMPLES (set_buffer_size sec) ∧
    (runCycle transcribe (MIN_SAMPLES (set_buffer_size sec)) buffer last).invoked =
      some (padSegment (normalize
        (buffer.take (MIN_SAMPLES (set_buffer_size sec))))) := by
  have hmin : SAMPLE_RATE < MIN_SAMPLES (set_buffer_size sec) := by
    have h5 : (5 : Int) ≤ set_buffer_size sec := le_max_left _ _
    generalize set_buffer_size sec = c at h5 ⊢
    simp only [MIN_SAMPLES, SAMPLE_RATE]
    omega
  exact ⟨hmin, runCycle_failopen_invoked _ _ _ _ hmin hlen hmask⟩

/-- Witness for C10 with a requested buffer size of 3 seconds (clamped to
5, MIN_SAMPLES = 80000) and an all-silent buffer. -/
theorem C10_failopen_submitted_witness :
    SAMPLE_RATE < MIN_SAMPLES (set_buffer_size 3) ∧
    (runCycle (fun _ => []) (MIN_SAMPLES (set_buffer_size 3))
        (List.replicate 80000 (0:ℚ)) []).invoked =
      some (padSegment (normalize ((List.replicate 80000 (0:ℚ)).take
        (MIN_SAMPLES (set_buffer_size 3))))) := by
  have hms : MIN_SAMPLES (set_buffer_size 3) = 80000 := by decide
  refine C10_failopen_submitted 3 (fun _ => []) (List.replicate 80000 (0:ℚ)) [] ?_ ?_
  · rw [hms, List.length_replicate]
  · intro b hb
    rw [hms, List.take_replicate, min_self] at hb
    exact vadMask_replicate_zero 80000 b hb

end TranscriptionApp
